import Mathlib

/-!
Verification of the codex core runtime against its specification.

Strings from the Rust source are modelled as `List Char`; Rust's byte
lengths (`str::len`) become `byteLen` (the sum of UTF-8 sizes), so the
byte-budget helpers cut only at character boundaries by construction.
Fallible functions return `Except`/`Option`; the stateful turn loops are
modelled by explicit state passing over traces of stream events.
-/

set_option maxHeartbeats 1000000

namespace Codex

/-- UTF-8 byte length of a char-list (Rust `str::len`). -/
def byteLen (l : List Char) : Nat := (l.map Char.utf8Size).sum

@[simp] theorem byteLen_nil : byteLen [] = 0 := rfl

@[simp] theorem byteLen_cons (c : Char) (l : List Char) :
    byteLen (c :: l) = c.utf8Size + byteLen l := rfl

@[simp] theorem byteLen_append (a b : List Char) :
    byteLen (a ++ b) = byteLen a + byteLen b := by
  induction a with
  | nil => simp
  | cons c t ih => simp [ih]; omega

theorem byteLen_reverse (a : List Char) : byteLen a.reverse = byteLen a := by
  induction a with
  | nil => rfl
  | cons c t ih => simp [byteLen_append, ih]; omega

/-- `slice.join(sep)` from Rust: concatenate with a separator between parts. -/
def joinSep (sep : List Char) : List (List Char) → List Char
  | [] => []
  | [x] => x
  | x :: xs => x ++ sep ++ joinSep sep xs

/-! ## `core/src/template_processor.rs` -/

/-- `TemplateError` from `template_processor.rs`. -/
inductive TemplateError
  | invalidPlaceholder (pos : Nat)
  | outputTooLarge (limit : Nat)
deriving DecidableEq, Repr

/-- `MAX_BYTES` in `render_template`: 64 KiB. -/
def TEMPLATE_MAX_BYTES : Nat := 64 * 1024

/-- The value of `usize::MAX` on the 64-bit targets codex ships for;
`num.parse::<usize>()` fails above it. -/
def USIZE_MAX : Nat := 2 ^ 64 - 1

/-- Numeric value of a decimal digit string (what a successful
`parse::<usize>` returns). -/
def digitsVal (ds : List Char) : Nat :=
  ds.foldl (fun a c => a * 10 + (c.toNat - 48)) 0

/-- `num.parse::<usize>()`: fails on the empty string and on overflow. -/
def parseUsize (ds : List Char) : Option Nat :=
  if ds = [] then none
  else if digitsVal ds ≤ USIZE_MAX then some (digitsVal ds) else none

/-- One step of `render_template`'s loop after a `'$'` has been consumed:
`cs` is the rest of the template, `out` the output so far.  Returns the
remaining input and the new output, or the in-loop size-cap error (which the
source checks only on the unknown-placeholder path). -/
def dollarStep (args : List (List Char)) (all : List Char)
    (cs out : List Char) : Except TemplateError (List Char × List Char) :=
  match cs with
  | '$' :: r => .ok (r, out ++ ['$'])
  | '*' :: r => .ok (r, out ++ all)
  | 'A' :: r =>
    -- `str_peek_consume(&mut chars, "ARGUMENTS")`
    if "RGUMENTS".data.isPrefixOf r then .ok (r.drop 8, out ++ all)
    else
      if TEMPLATE_MAX_BYTES < byteLen (out ++ ['$', 'A']) then
        .error (.outputTooLarge TEMPLATE_MAX_BYTES)
      else .ok (r, out ++ ['$', 'A'])
  | '{' :: r =>
    match r.dropWhile Char.isDigit with
    | '}' :: r3 =>
      -- the '}' is consumed before the parse is attempted
      match parseUsize (r.takeWhile Char.isDigit) with
      | some idx =>
        if 1 ≤ idx then .ok (r3, out ++ args.getD (idx - 1) [])
        else match r3 with
          | '}' :: r4 => .ok (r4, out ++ '$' :: '{' :: r.takeWhile Char.isDigit ++ ['}'])
          | _ => .ok (r3, out ++ '$' :: '{' :: r.takeWhile Char.isDigit)
      | none => match r3 with
          | '}' :: r4 => .ok (r4, out ++ '$' :: '{' :: r.takeWhile Char.isDigit ++ ['}'])
          | _ => .ok (r3, out ++ '$' :: '{' :: r.takeWhile Char.isDigit)
    | _ => .ok (r.dropWhile Char.isDigit, out ++ '$' :: '{' :: r.takeWhile Char.isDigit)
  | c :: r =>
    if c.isDigit ∧ c ≠ '0' then .ok (r, out ++ args.getD (c.toNat - 49) [])
    else
      if TEMPLATE_MAX_BYTES < byteLen (out ++ ['$', c]) then
        .error (.outputTooLarge TEMPLATE_MAX_BYTES)
      else .ok (r, out ++ ['$', c])
  | [] =>
    if TEMPLATE_MAX_BYTES < byteLen (out ++ ['$']) then
      .error (.outputTooLarge TEMPLATE_MAX_BYTES)
    else .ok ([], out ++ ['$'])

theorem dropWhile_length_le {α : Type} (p : α → Bool) (l : List α) :
    (l.dropWhile p).length ≤ l.length := by
  induction l with
  | nil => simp
  | cons a t ih =>
    rw [List.dropWhile_cons]
    split
    · exact Nat.le_trans ih (by simp)
    · simp

theorem dollarStep_length (args : List (List Char)) (all : List Char)
    (cs out rest out2 : List Char)
    (h : dollarStep args all cs out = .ok (rest, out2)) :
    rest.length ≤ cs.length := by
  unfold dollarStep at h
  split at h
  · cases h; simp
  · cases h; simp
  · rename_i r
    split at h
    · cases h
      have := List.length_drop 8 r
      simp_all; omega
    · split at h
      · exact absurd h (by simp)
      · cases h; simp
  · rename_i r
    split at h
    · rename_i r3 heq
      have hr2 : (r.dropWhile Char.isDigit).length ≤ r.length :=
        dropWhile_length_le _ r
      rw [heq] at hr2
      split at h
      · split at h
        · cases h; simp at hr2 ⊢; omega
        · split at h
          · cases h; simp at hr2 ⊢; omega
          · cases h; simp at hr2 ⊢; omega
      · split at h
        · cases h; simp at hr2 ⊢; omega
        · cases h; simp at hr2 ⊢; omega
    · rename_i heq
      cases h
      have hr2 : (r.dropWhile Char.isDigit).length ≤ r.length :=
        dropWhile_length_le _ r
      simp; omega
  · rename_i c r h1 h2 h3 h4
    split at h
    · cases h; simp
    · split at h
      · exact absurd h (by simp)
      · cases h; simp
  · split at h
    · exact absurd h (by simp)
    · cases h; simp

/-- The character-consuming loop of `render_template`. -/
def renderLoop (args : List (List Char)) (all : List Char) :
    List Char → List Char → Except TemplateError (List Char)
  | [], out =>
    if TEMPLATE_MAX_BYTES < byteLen out then .error (.outputTooLarge TEMPLATE_MAX_BYTES)
    else .ok out
  | c :: cs, out =>
    if c = '$' then
      match h : dollarStep args all cs out with
      | .error e => .error e
      | .ok (rest, out2) => renderLoop args all rest out2
    else renderLoop args all cs (out ++ [c])
termination_by cs _ => cs.length
decreasing_by
  · have := dollarStep_length args all cs out rest out2 h
    simp; omega
  · simp

/-- `render_template` from `template_processor.rs`. -/
def render_template (template : List Char) (args : List (List Char)) :
    Except TemplateError (List Char) :=
  if template.contains '$' then
    renderLoop args (joinSep [' '] args) template []
  else .ok template

/-! ## `core/src/custom_commands.rs` -/

/-- Is a char in the kept alphabet `[a-z0-9]`? -/
def isAlnumLower (c : Char) : Bool :=
  ('a' ≤ c ∧ c ≤ 'z') ∨ ('0' ≤ c ∧ c ≤ '9')

/-- The character loop of `normalize_id`, carrying the `prev_hyphen` flag. -/
def normFold : Bool → List Char → List Char
  | _, [] => []
  | prevHyphen, c :: rest =>
    if isAlnumLower c then c :: normFold false rest
    else if c = ' ' ∨ c = '_' ∨ c = '-' then
      if prevHyphen then normFold true rest else '-' :: normFold true rest
    else normFold prevHyphen rest

/-- Rust `str::trim_matches('-')`: drop hyphens from both ends. -/
def trimHyphens (l : List Char) : List Char :=
  ((l.dropWhile (· = '-')).reverse.dropWhile (· = '-')).reverse

/-- `normalize_id` from `custom_commands.rs`.  Rust first applies Unicode
`str::to_lowercase`; on the characters the next pass can keep (ASCII) that
agrees with per-char `Char.toLower`, which is used here. -/
def normalize_id (name : List Char) : List Char :=
  if trimHyphens (normFold false (name.map Char.toLower)) = [] then "unnamed".data
  else trimHyphens (normFold false (name.map Char.toLower))

/-- No two adjacent hyphens. -/
def noHyphenRun : List Char → Bool
  | c1 :: c2 :: rest => !(c1 = '-' ∧ c2 = '-') && noHyphenRun (c2 :: rest)
  | _ => true

/-- The shape `normalize_id` promises: only `[a-z0-9-]`, no hyphen runs,
no hyphen at either end, nonempty. -/
def isNormalId (l : List Char) : Bool :=
  l.all (fun c => isAlnumLower c || c = '-') && noHyphenRun l &&
    l.head? ≠ some '-' && l.getLast? ≠ some '-' && !l.isEmpty

/-! ## `core/src/agents.rs` — `filter_tools_for_agent` -/

/-- `OpenAiTool` from `openai_tools.rs`, reduced to the name data the
filter inspects. -/
inductive OpenAiTool
  | function (name : String)
  | localShell
  | webSearch
  | freeform (name : String)
deriving DecidableEq, Repr

/-- The `tool_name` match inside `filter_tools_for_agent`. -/
def toolName : OpenAiTool → String
  | .function n => n
  | .localShell => "local_shell"
  | .webSearch => "web_search"
  | .freeform n => n

/-- The `shell_aliases` array.  The two streamable-shell names are the
constants `EXEC_COMMAND_TOOL_NAME` / `WRITE_STDIN_TOOL_NAME` from the
`exec_command` module (not shipped under `src/`); the spec names them
`exec_command` and `write_stdin`. -/
def shellAliases : List String := ["shell", "local_shell", "exec_command", "write_stdin"]

/-- The expanded allowlist (`HashSet` modelled by a list with membership
semantics): the whole alias group is added when the allowlist mentions any
of its members. -/
def expandedAllowlist (allowlist : List String) : List String :=
  if allowlist.any (fun t => shellAliases.contains t) then allowlist ++ shellAliases
  else allowlist

/-- `filter_tools_for_agent` from `agents.rs`. -/
def filter_tools_for_agent (tools : List OpenAiTool) (allowedTools : Option (List String)) :
    List OpenAiTool :=
  match allowedTools with
  | none => tools
  | some allowlist =>
    if allowlist.isEmpty then []
    else tools.filter (fun tool => (expandedAllowlist allowlist).contains (toolName tool))

/-! ## `core/src/codex.rs` — model-facing exec-output formatting -/

/-- `MODEL_FORMAT_MAX_BYTES`: 10 KiB. -/
def MODEL_FORMAT_MAX_BYTES : Nat := 10 * 1024

/-- `MODEL_FORMAT_MAX_LINES`. -/
def MODEL_FORMAT_MAX_LINES : Nat := 256

/-- `MODEL_FORMAT_HEAD_LINES = MAX_LINES / 2`. -/
def MODEL_FORMAT_HEAD_LINES : Nat := MODEL_FORMAT_MAX_LINES / 2

/-- `MODEL_FORMAT_TAIL_LINES = MAX_LINES - HEAD_LINES`. -/
def MODEL_FORMAT_TAIL_LINES : Nat := MODEL_FORMAT_MAX_LINES - MODEL_FORMAT_HEAD_LINES

/-- `MODEL_FORMAT_HEAD_BYTES = MAX_BYTES / 2`. -/
def MODEL_FORMAT_HEAD_BYTES : Nat := MODEL_FORMAT_MAX_BYTES / 2

/-- Split on `'\n'`; always returns at least one (possibly empty) segment. -/
def splitNl : List Char → List (List Char)
  | [] => [[]]
  | c :: rest =>
    if c = '\n' then [] :: splitNl rest
    else
      match splitNl rest with
      | [] => [[c]]
      | p :: ps => (c :: p) :: ps

/-- Strip one trailing `'\r'` (applied by Rust `str::lines` to every
segment that was terminated by a `'\n'`). -/
def stripCr (l : List Char) : List Char :=
  if l.getLast? = some '\r' then l.dropLast else l

/-- Rust `str::lines`: split at `'\n'`, strip a `'\r'` before each `'\n'`,
and drop a final empty segment (so a trailing newline adds no line). -/
def rustLines (s : List Char) : List (List Char) :=
  match (splitNl s).getLast? with
  | some last =>
    if last = [] then ((splitNl s).dropLast).map stripCr
    else ((splitNl s).dropLast).map stripCr ++ [last]
  | none => ((splitNl s).dropLast).map stripCr

/-- The decimal digit character for `m % 10`. -/
def digitChar (m : Nat) : Char :=
  match m % 10 with
  | 0 => '0' | 1 => '1' | 2 => '2' | 3 => '3' | 4 => '4'
  | 5 => '5' | 6 => '6' | 7 => '7' | 8 => '8' | _ => '9'

/-- Decimal digits of `n`, structurally recursive on a fuel that always
suffices (`n` has at most `n + 1` digits). -/
def natCharsAux : Nat → Nat → List Char
  | 0, _ => []
  | fuel + 1, n => if n < 10 then [digitChar n] else natCharsAux fuel (n / 10) ++ [digitChar n]

/-- Decimal digits of `n` (what `format!("{n}")` prints). -/
def natChars (n : Nat) : List Char := natCharsAux (n + 1) n

/-- The elision marker `"\n[... omitted {omitted} of {total} lines ...]\n\n"`. -/
def elisionMarker (omitted total : Nat) : List Char :=
  '\n' :: ("[... omitted ".data ++ natChars omitted ++ " of ".data ++
    natChars total ++ " lines ...]".data) ++ ['\n', '\n']

/-- `take_bytes_at_char_boundary`: the longest prefix of whole characters
that fits in `maxb` bytes. -/
def take_bytes_at_char_boundary : List Char → Nat → List Char
  | [], _ => []
  | c :: rest, maxb =>
    if c.utf8Size ≤ maxb then c :: take_bytes_at_char_boundary rest (maxb - c.utf8Size)
    else []

/-- `take_last_bytes_at_char_boundary`: the longest suffix of whole
characters that fits in `maxb` bytes. -/
def take_last_bytes_at_char_boundary (s : List Char) (maxb : Nat) : List Char :=
  (take_bytes_at_char_boundary s.reverse maxb).reverse

/-- `head_take` in `format_exec_output_str`. -/
def fmtHeadTake (s : List Char) : Nat := min MODEL_FORMAT_HEAD_LINES (rustLines s).length

/-- `tail_take`. -/
def fmtTailTake (s : List Char) : Nat :=
  min MODEL_FORMAT_TAIL_LINES ((rustLines s).length - fmtHeadTake s)

/-- `omitted`. -/
def fmtOmitted (s : List Char) : Nat :=
  (rustLines s).length - (fmtHeadTake s + fmtTailTake s)

/-- `head_block`: the first `head_take` lines re-joined with newlines. -/
def fmtHeadBlock (s : List Char) : List Char :=
  joinSep ['\n'] ((rustLines s).take (fmtHeadTake s))

/-- `tail_block`: the last `tail_take` lines re-joined with newlines. -/
def fmtTailBlock (s : List Char) : List Char :=
  if 0 < fmtTailTake s then
    joinSep ['\n'] ((rustLines s).drop ((rustLines s).length - fmtTailTake s))
  else []

/-- The marker for this input. -/
def fmtMarker (s : List Char) : List Char :=
  elisionMarker (fmtOmitted s) (rustLines s).length

/-- `tail_budget` (before the degenerate-marker handling). -/
def fmtTailBudget (s : List Char) : Nat :=
  MODEL_FORMAT_MAX_BYTES -
    (min MODEL_FORMAT_HEAD_BYTES MODEL_FORMAT_MAX_BYTES + byteLen (fmtMarker s))

/-- `head_budget`, shrunk to make room for the marker when `tail_budget`
is zero. -/
def fmtHeadBudget (s : List Char) : Nat :=
  if fmtTailBudget s = 0 then MODEL_FORMAT_MAX_BYTES - byteLen (fmtMarker s)
  else min MODEL_FORMAT_HEAD_BYTES MODEL_FORMAT_MAX_BYTES

/-- `head_part`. -/
def fmtHeadPart (s : List Char) : List Char :=
  take_bytes_at_char_boundary (fmtHeadBlock s) (fmtHeadBudget s)

/-- `remaining` after the head part and marker. -/
def fmtRemaining (s : List Char) : Nat :=
  MODEL_FORMAT_MAX_BYTES - byteLen (fmtHeadPart s ++ fmtMarker s)

/-- `tail_part`. -/
def fmtTailPart (s : List Char) : List Char :=
  take_last_bytes_at_char_boundary (fmtTailBlock s) (fmtRemaining s)

/-- `format_exec_output_str` from `codex.rs`: head+tail truncation of the
aggregated output for the model. -/
def format_exec_output_str (s : List Char) : List Char :=
  if byteLen s ≤ MODEL_FORMAT_MAX_BYTES ∧ (rustLines s).length ≤ MODEL_FORMAT_MAX_LINES then s
  else if fmtTailBudget s = 0 ∧ MODEL_FORMAT_MAX_BYTES ≤ byteLen (fmtMarker s) then
    take_bytes_at_char_boundary (fmtMarker s) MODEL_FORMAT_MAX_BYTES
  else fmtHeadPart s ++ fmtMarker s ++ fmtTailPart s

/-! ## `core/src/codex.rs` — history items and `try_run_turn`'s
synthetic-abort compensation -/

/-- `ResponseItem` (protocol models), reduced to the fields the turn
engine inspects. -/
inductive ResponseItem
  | message (role : String) (content : List String)
  | reasoning
  | functionCall (name arguments callId : String)
  | functionCallOutput (callId output : String)
  | localShellCall (id callId : Option String) (action : String)
  | customToolCall (name input callId : String)
  | customToolCallOutput (callId output : String)
  | webSearchCall
  | subAgentStart (name description : String)
  | subAgentEnd (name : String) (success : Bool)
deriving DecidableEq, Repr

/-- `completed_call_ids` in `try_run_turn`: call_ids regarded as already
answered in the prompt input.  Note the source counts a
`LocalShellCall {call_id: Some _}` itself among the *completed* ids. -/
def completed_call_ids (input : List ResponseItem) : List String :=
  input.filterMap fun ri =>
    match ri with
    | .functionCallOutput callId _ => some callId
    | .localShellCall _ (some callId) _ => some callId
    | .customToolCallOutput callId _ => some callId
    | _ => none

/-- `missing_calls` in `try_run_turn`: synthetic `"aborted"` outputs for
tool calls whose id is not among `completed_call_ids`. -/
def missing_calls (input : List ResponseItem) : List ResponseItem :=
  ((input.filterMap fun ri =>
    match ri with
    | .functionCall _ _ callId => some callId
    | .localShellCall _ (some callId) _ => some callId
    | .customToolCall _ _ callId => some callId
    | _ => none).filter
      (fun callId => !(completed_call_ids input).contains callId)).map
    fun callId => .customToolCallOutput callId "aborted"

/-- The prompt input actually sent to the provider: synthetic aborted
outputs are prepended. -/
def effective_input (input : List ResponseItem) : List ResponseItem :=
  missing_calls input ++ input

/-- Does `items` contain an output item (real or synthetic) for `cid`? -/
def hasOutputFor (cid : String) (items : List ResponseItem) : Bool :=
  items.any fun it =>
    match it with
    | .functionCallOutput c _ => c = cid
    | .customToolCallOutput c _ => c = cid
    | _ => false

/-! ## `core/src/codex.rs` — `run_turn` retry loop -/

/-- `CodexErr` (from `core/src/error.rs`), reduced to the kinds `run_turn`
distinguishes; `internalAgentDied` and `sandbox` stand for the error
classes that fall into the catch-all `Err(e)` arm without being stream
errors. -/
inductive CodexErr
  | interrupted
  | envVar (var : String)
  | usageLimitReached
  | usageNotIncluded
  | stream (msg : String) (retryAfter : Option Nat)
  | internalAgentDied
  | sandbox
deriving DecidableEq, Repr

/-- The four error kinds `run_turn` returns immediately, without retrying. -/
def isImmediateErr : CodexErr → Bool
  | .interrupted => true
  | .envVar _ => true
  | .usageLimitReached => true
  | .usageNotIncluded => true
  | _ => false

/-- The sleep chosen before a retry: the server-supplied delay if the
error is a stream error carrying one, else `backoff(retries)` with the
already-incremented retry counter. -/
def retryDelay (backoff : Nat → Nat) (e : CodexErr) (retries : Nat) : Nat :=
  match e with
  | .stream _ (some d) => d
  | _ => backoff retries

/-- The retry loop of `run_turn`.  `attempts` lists the outcome
`try_run_turn` would produce on each successive attempt (the environment);
the result pairs `run_turn`'s return value with the sleeps performed.
`none` means the environment provided fewer attempts than the loop
consumed. -/
def runTurnLoop (maxRetries : Nat) (backoff : Nat → Nat) :
    List (Except CodexErr Nat) → Nat → Option (Except CodexErr Nat × List Nat)
  | [], _ => none
  | a :: rest, retries =>
    match a with
    | .ok v => some (.ok v, [])
    | .error e =>
      if isImmediateErr e then some (.error e, [])
      else if retries < maxRetries then
        match runTurnLoop maxRetries backoff rest (retries + 1) with
        | none => none
        | some (r, ds) => some (r, retryDelay backoff e (retries + 1) :: ds)
      else some (.error e, [])

/-- `run_turn`: the loop starts with `retries = 0`. -/
def run_turn (maxRetries : Nat) (backoff : Nat → Nat)
    (attempts : List (Except CodexErr Nat)) : Option (Except CodexErr Nat × List Nat) :=
  runTurnLoop maxRetries backoff attempts 0

/-! ## `core/src/codex.rs` — `handle_subagent_run` -/

/-- The parsed `RunArgs` of the `subagent_run` tool (`model` is unused). -/
structure RunArgs where
  name : String
  task : String
deriving DecidableEq, Repr

/-- Events of one nested model stream, as drained by the sub-agent loop. -/
inductive SubEvent
  | itemDone (item : ResponseItem)
  | completed
  | textDelta
  | otherEvent
  | streamErr (msg : String)
deriving DecidableEq, Repr

/-- The mutable state of the sub-agent loop.  `conversation` is the local,
isolated transcript; `pending` is `pending_function_outputs` of the
current turn. -/
structure SubSt where
  conversation : List ResponseItem
  outputText : String
  toolCallsMade : List String
  success : Bool
  errorMessage : Option String
  pending : List ResponseItem
deriving Repr

/-- Is this item one of the three tool-call kinds the nested dispatcher
answers? -/
def isToolCallItem : ResponseItem → Bool
  | .localShellCall _ _ _ => true
  | .functionCall _ _ _ => true
  | .customToolCall _ _ _ => true
  | _ => false

/-- Handling of one `OutputItemDone(item)` in the nested loop.  `respond`
abstracts the nested dispatcher (exec, apply_patch, unsupported-call
failures, …): it yields the output item pushed for a tool call.  Every
push targets the local `conversation`. -/
def drainStep (respond : ResponseItem → ResponseItem) (item : ResponseItem)
    (st : SubSt) : SubSt :=
  if isToolCallItem item then
    { st with conversation := st.conversation ++ [item, respond item],
              toolCallsMade := st.toolCallsMade ++ [""],
              pending := st.pending ++ [respond item] }
  else
    match item with
    | .message role content =>
      if role = "assistant" then
        { st with conversation := st.conversation ++ [item],
                  outputText := st.outputText ++ String.join content }
      else { st with conversation := st.conversation ++ [item] }
    | _ => { st with conversation := st.conversation ++ [item] }

/-- One pass of the inner `while let Some(ev) = stream.rx_event.recv()`
loop.  The returned flag is `true` when the `'outer` loop is left (final
completion or stream error). -/
def drainTurn (respond : ResponseItem → ResponseItem) :
    List SubEvent → SubSt → SubSt × Bool
  | [], st => (st, false)
  | ev :: rest, st =>
    match ev with
    | .itemDone item => drainTurn respond rest (drainStep respond item st)
    | .completed => if st.pending.isEmpty then (st, true) else (st, false)
    | .streamErr msg => ({ st with success := false, errorMessage := some msg }, true)
    | _ => drainTurn respond rest st

/-- The `'outer` multi-turn loop.  Each element of `streams` is what one
`client.stream(&prompt)` call yields: `none` for a failed stream start,
`some events` for a stream.  An exhausted list behaves like a failed
stream start. -/
def subagentLoop (respond : ResponseItem → ResponseItem) :
    List (Option (List SubEvent)) → SubSt → SubSt
  | [], st => { st with success := false, errorMessage := some "stream start failed" }
  | none :: _, st => { st with success := false, errorMessage := some "stream start failed" }
  | some evs :: rest, st =>
    match drainTurn respond evs { st with pending := [] } with
    | (st2, true) => st2
    | (st2, false) => subagentLoop respond rest st2

/-- `handle_subagent_run`, projected onto history effects.  `parse` is the
result of deserializing the arguments, `describe` the body returned by
`describe_agent` (or `none` for an unknown agent).  Returns the items the
handler records into the *parent* session history (in order), the local
conversation, and the success flag.  In the source the only parent-history
writes are the two `record_conversation_items` calls for `SubAgentStart`
(before the nested run, but also before `describe_agent` can fail) and
`SubAgentEnd`. -/
def handle_subagent_run (respond : ResponseItem → ResponseItem)
    (parse : Option RunArgs) (describe : Option String)
    (streams : List (Option (List SubEvent))) :
    List ResponseItem × List ResponseItem × Bool :=
  match parse with
  | none => ([], [], false)
  | some args =>
    match describe with
    | none => ([.subAgentStart args.name args.task], [], false)
    | some body =>
      let st0 : SubSt :=
        { conversation := [.message "user" [body ++ "\n\nTask: " ++ args.task]],
          outputText := "", toolCallsMade := [], success := true,
          errorMessage := none, pending := [] }
      let st := subagentLoop respond streams st0
      ([.subAgentStart args.name args.task, .subAgentEnd args.name st.success],
        st.conversation, st.success)

/-! ## Helper lemmas about the byte-budget helpers -/

theorem take_bytes_isPrefix (s : List Char) (maxb : Nat) :
    take_bytes_at_char_boundary s maxb <+: s := by
  induction s generalizing maxb with
  | nil => simp [take_bytes_at_char_boundary]
  | cons c rest ih =>
    rw [take_bytes_at_char_boundary]
    split
    · exact List.cons_prefix_cons.mpr ⟨rfl, ih (maxb - c.utf8Size)⟩
    · exact List.nil_prefix

theorem take_bytes_byteLen_le (s : List Char) (maxb : Nat) :
    byteLen (take_bytes_at_char_boundary s maxb) ≤ maxb := by
  induction s generalizing maxb with
  | nil => simp [take_bytes_at_char_boundary]
  | cons c rest ih =>
    rw [take_bytes_at_char_boundary]
    split
    · rename_i hle
      have := ih (maxb - c.utf8Size)
      simp only [byteLen_cons]
      omega
    · simp

theorem take_last_isSuffix (s : List Char) (maxb : Nat) :
    take_last_bytes_at_char_boundary s maxb <:+ s := by
  unfold take_last_bytes_at_char_boundary
  have h := take_bytes_isPrefix s.reverse maxb
  have h2 : (take_bytes_at_char_boundary s.reverse maxb).reverse <:+ s.reverse.reverse :=
    List.reverse_suffix.mpr h
  simpa using h2

theorem take_last_byteLen_le (s : List Char) (maxb : Nat) :
    byteLen (take_last_bytes_at_char_boundary s maxb) ≤ maxb := by
  unfold take_last_bytes_at_char_boundary
  rw [byteLen_reverse]
  exact take_bytes_byteLen_le s.reverse maxb

/-- C10: the head- and tail-truncation helpers return a prefix
(resp. suffix) of whole characters of the input, of byte length at most
the budget, so the formatter never splits a multi-byte character and never
slices out of bounds. -/
theorem C10_byte_budget_helpers_safe (s : List Char) (maxb : Nat) :
    (take_bytes_at_char_boundary s maxb <+: s ∧
      byteLen (take_bytes_at_char_boundary s maxb) ≤ maxb) ∧
    (take_last_bytes_at_char_boundary s maxb <:+ s ∧
      byteLen (take_last_bytes_at_char_boundary s maxb) ≤ maxb) :=
  ⟨⟨take_bytes_isPrefix s maxb, take_bytes_byteLen_le s maxb⟩,
    ⟨take_last_isSuffix s maxb, take_last_byteLen_le s maxb⟩⟩

/-- C8: below both limits (10 KiB, 256 lines) the model-facing formatter
is the identity. -/
theorem C8_format_identity_below_limits (s : List Char)
    (hb : byteLen s ≤ MODEL_FORMAT_MAX_BYTES)
    (hl : (rustLines s).length ≤ MODEL_FORMAT_MAX_LINES) :
    format_exec_output_str s = s := by
  unfold format_exec_output_str
  rw [if_pos ⟨hb, hl⟩]

/-- Witness for C8 at a concrete small output. -/
theorem C8_format_identity_below_limits_witness :
    format_exec_output_str "ok: 2 files changed".data = "ok: 2 files changed".data :=
  C8_format_identity_below_limits _ (by decide) (by decide)

/-- C4: the sub-agent tool filter keeps everything when the allowlist is
absent, nothing when it is empty, and otherwise only tools whose name is
in the allowlist or—when the allowlist meets the shell alias group—in
that four-element group. -/
theorem C4_allowlist_enforcement (tools : List OpenAiTool) (A : List String) :
    filter_tools_for_agent tools none = tools ∧
    filter_tools_for_agent tools (some []) = [] ∧
    (A ≠ [] → ∀ t ∈ filter_tools_for_agent tools (some A),
      toolName t ∈ A ∨ ((∃ a ∈ A, a ∈ shellAliases) ∧ toolName t ∈ shellAliases)) := by
  refine ⟨rfl, rfl, ?_⟩
  intro hA t ht
  simp only [filter_tools_for_agent] at ht
  rw [if_neg (by simpa using hA)] at ht
  have hmem := List.of_mem_filter ht
  have hname : toolName t ∈ expandedAllowlist A :=
    List.mem_of_elem_eq_true hmem
  unfold expandedAllowlist at hname
  split at hname
  · rename_i hany
    rcases List.mem_append.mp hname with h | h
    · exact Or.inl h
    · refine Or.inr ⟨?_, h⟩
      rcases List.any_eq_true.mp hany with ⟨a, ha, hc⟩
      exact ⟨a, ha, List.mem_of_elem_eq_true hc⟩
  · exact Or.inl hname

/-- Witness for C4: allowlist `["shell"]` keeps the whole shell alias
group but drops `web_search`. -/
theorem C4_allowlist_enforcement_witness :
    filter_tools_for_agent
      [.function "shell", .localShell, .webSearch, .function "exec_command"]
      (some ["shell"]) =
      [.function "shell", .localShell, .function "exec_command"] ∧
    (["shell"] ≠ ([] : List String) ∧
      ∀ t ∈ filter_tools_for_agent
        [OpenAiTool.function "shell", .localShell, .webSearch, .function "exec_command"]
        (some ["shell"]),
        toolName t ∈ ["shell"] ∨
          ((∃ a ∈ ["shell"], a ∈ shellAliases) ∧ toolName t ∈ shellAliases)) := by
  refine ⟨by decide, by decide, ?_⟩
  exact (C4_allowlist_enforcement
    [.function "shell", .localShell, .webSearch, .function "exec_command"] ["shell"]).2.2
    (by decide)

/-- C1 concerns `try_run_turn`'s compensation of unanswered tool calls.
The source's `completed_call_ids` counts a `LocalShellCall {call_id:
Some _}` itself as a completed id, so an unanswered local shell call is
never compensated (the `LocalShellCall` arm of the missing-calls filter is
dead code): the provider-visible input below still contains no output for
`"c1"`.  A plain unanswered `FunctionCall` is compensated as the spec
describes. -/
theorem C1_local_shell_call_not_compensated :
    effective_input [.localShellCall none (some "c1") "exec"] =
      [.localShellCall none (some "c1") "exec"] ∧
    hasOutputFor "c1" (effective_input [.localShellCall none (some "c1") "exec"]) = false ∧
    effective_input [.functionCall "shell" "{}" "c2"] =
      [.customToolCallOutput "c2" "aborted", .functionCall "shell" "{}" "c2"] := by
  refine ⟨by decide, by decide, by decide⟩

/-! ## Template-processor lemmas -/

theorem render_no_dollar (t : List Char) (args : List (List Char))
    (h : t.contains '$' = false) : render_template t args = .ok t := by
  have hnc : ¬ (t.contains '$' = true) := by rw [h]; exact Bool.false_ne_true
  unfold render_template
  rw [if_neg hnc]

theorem replicate_contains_ne (a c : Char) (h : (a == c) = false) (n : Nat) :
    (List.replicate n a).contains c = false := by
  induction n with
  | zero => rfl
  | succ k ih =>
    have h2 : (c == a) = false := by
      simp only [beq_eq_false_iff_ne, ne_eq] at h ⊢
      exact fun hca => h hca.symm
    rw [List.replicate_succ, List.contains_cons, ih, h2]
    rfl

theorem byteLen_replicate (n : Nat) (c : Char) :
    byteLen (List.replicate n c) = n * c.utf8Size := by
  induction n with
  | zero => simp [byteLen]
  | succ k ih => rw [List.replicate_succ, byteLen_cons, ih]; ring

/-- C9: a template with no `'$'` is returned unchanged for every argument
list without any size check — the 64 KiB cap is bypassed entirely on this
path. -/
theorem C9_no_dollar_bypasses_cap (t : List Char) (args : List (List Char))
    (h : t.contains '$' = false) : render_template t args = .ok t :=
  render_no_dollar t args h

/-- Witness for C9 on a 70000-byte dollar-free template, well above the
64 KiB cap. -/
theorem C9_no_dollar_bypasses_cap_witness :
    render_template (List.replicate 70000 'a') [] = .ok (List.replicate 70000 'a') ∧
    TEMPLATE_MAX_BYTES < byteLen (List.replicate 70000 'a') := by
  constructor
  · exact C9_no_dollar_bypasses_cap _ [] (replicate_contains_ne 'a' '$' (by decide) 70000)
  · rw [byteLen_replicate]; decide


theorem renderLoop_cons_dollar (args : List (List Char)) (all cs out : List Char) :
    renderLoop args all ('$' :: cs) out =
      match dollarStep args all cs out with
      | .error e => .error e
      | .ok (rest, out2) => renderLoop args all rest out2 := by
  rw [renderLoop, if_pos rfl]
  split
  · rename_i e heq
    rw [heq]
  · rename_i rest out2 heq
    rw [heq]

theorem renderLoop_nil (args : List (List Char)) (all out : List Char) :
    renderLoop args all [] out =
      if TEMPLATE_MAX_BYTES < byteLen out then .error (.outputTooLarge TEMPLATE_MAX_BYTES)
      else .ok out := by
  rw [renderLoop]

theorem render_star_eval (args : List (List Char)) :
    render_template "$*".data args =
      if TEMPLATE_MAX_BYTES < byteLen (joinSep [' '] args)
      then .error (.outputTooLarge TEMPLATE_MAX_BYTES)
      else .ok (joinSep [' '] args) := by
  rw [render_template, if_pos (by decide)]
  rw [show "$*".data = ['$', '*'] from rfl]
  rw [renderLoop_cons_dollar]
  simp only [dollarStep]
  show renderLoop args (joinSep [' '] args) [] ([] ++ joinSep [' '] args) = _
  rw [renderLoop_nil]
  simp

theorem render_arguments_eval (args : List (List Char)) :
    render_template "$ARGUMENTS".data args =
      if TEMPLATE_MAX_BYTES < byteLen (joinSep [' '] args)
      then .error (.outputTooLarge TEMPLATE_MAX_BYTES)
      else .ok (joinSep [' '] args) := by
  rw [render_template, if_pos (by decide)]
  rw [show "$ARGUMENTS".data = '$' :: 'A' :: "RGUMENTS".data from rfl]
  rw [renderLoop_cons_dollar]
  simp only [dollarStep]
  rw [if_pos (by decide)]
  show renderLoop args (joinSep [' '] args) [] ([] ++ joinSep [' '] args) = _
  rw [renderLoop_nil]
  simp

theorem render_dollar_dollar_eval (args : List (List Char)) :
    render_template "$$".data args = .ok ['$'] := by
  rw [render_template, if_pos (by decide)]
  rw [show "$$".data = ['$', '$'] from rfl]
  rw [renderLoop_cons_dollar]
  simp only [dollarStep]
  show renderLoop args (joinSep [' '] args) [] ([] ++ ['$']) = _
  rw [renderLoop_nil]
  rw [if_neg (by decide)]
  rfl

theorem digits_split (ds : List Char) (h : ∀ c ∈ ds, c.isDigit = true) :
    (ds ++ ['}']).takeWhile Char.isDigit = ds ∧
    (ds ++ ['}']).dropWhile Char.isDigit = ['}'] := by
  induction ds with
  | nil => constructor <;> decide
  | cons c t ih =>
    have hc := h c (by simp)
    have ht := ih (fun x hx => h x (by simp [hx]))
    simp only [List.cons_append, List.takeWhile_cons, List.dropWhile_cons, hc, if_pos]
    exact ⟨by rw [ht.1], by rw [ht.2]⟩

theorem render_brace_eval (args : List (List Char)) (ds : List Char) (n : Nat)
    (hne : ds ≠ []) (hdig : ∀ c ∈ ds, c.isDigit = true) (hval : digitsVal ds = n)
    (h1 : 1 ≤ n) (hmax : n ≤ USIZE_MAX) :
    render_template ('$' :: '{' :: (ds ++ ['}'])) args =
      if TEMPLATE_MAX_BYTES < byteLen (args.getD (n - 1) [])
      then .error (.outputTooLarge TEMPLATE_MAX_BYTES)
      else .ok (args.getD (n - 1) []) := by
  rw [render_template, if_pos (by simp [List.contains_cons])]
  rw [renderLoop_cons_dollar]
  simp only [dollarStep]
  rw [(digits_split ds hdig).2, (digits_split ds hdig).1]
  simp only [parseUsize, if_neg hne, hval, if_pos hmax]
  rw [if_pos h1]
  show renderLoop args (joinSep [' '] args) [] ([] ++ args.getD (n - 1) []) = _
  rw [renderLoop_nil]
  simp

theorem render_brace_overflow_eval (args : List (List Char)) (ds : List Char)
    (hne : ds ≠ []) (hdig : ∀ c ∈ ds, c.isDigit = true)
    (hover : USIZE_MAX < digitsVal ds)
    (hfits : ¬ TEMPLATE_MAX_BYTES < byteLen ('$' :: '{' :: ds)) :
    render_template ('$' :: '{' :: (ds ++ ['}'])) args = .ok ('$' :: '{' :: ds) := by
  rw [render_template, if_pos (by simp [List.contains_cons])]
  rw [renderLoop_cons_dollar]
  simp only [dollarStep]
  rw [(digits_split ds hdig).2, (digits_split ds hdig).1]
  simp only [parseUsize, if_neg hne, if_neg (by omega : ¬ digitsVal ds ≤ USIZE_MAX)]
  show renderLoop args (joinSep [' '] args) [] ([] ++ '$' :: '{' :: ds) = _
  rw [renderLoop_nil]
  rw [if_neg (by simpa using hfits)]
  simp

theorem dollarStep_single_unknown (args : List (List Char)) (all out : List Char) (c : Char)
    (hc1 : c ≠ '$') (hc2 : c ≠ '*') (hcA : c ≠ 'A') (hc3 : c ≠ '{')
    (hc4 : ¬(c.isDigit = true ∧ c ≠ '0')) :
    dollarStep args all [c] out =
      if TEMPLATE_MAX_BYTES < byteLen (out ++ ['$', c])
      then .error (.outputTooLarge TEMPLATE_MAX_BYTES)
      else .ok ([], out ++ ['$', c]) := by
  rw [dollarStep.eq_def]
  split
  case h_1 cs r heq => simp only [List.cons.injEq] at heq; exact absurd heq.1 hc1
  case h_2 cs r heq => simp only [List.cons.injEq] at heq; exact absurd heq.1 hc2
  case h_3 cs r heq => simp only [List.cons.injEq] at heq; exact absurd heq.1 hcA
  case h_4 cs r heq => simp only [List.cons.injEq] at heq; exact absurd heq.1 hc3
  case h_6 cs heq => cases heq
  case h_5 cs c2 r2 h1 h2 h3 h4 heq =>
    simp only [List.cons.injEq] at heq
    obtain ⟨hce, hre⟩ := heq
    subst hce
    subst hre
    rw [if_neg hc4]

theorem render_unknown_eval (args : List (List Char)) (c : Char)
    (hc1 : c ≠ '$') (hc2 : c ≠ '*') (hc3 : c ≠ '{')
    (hc4 : ¬(c.isDigit = true ∧ c ≠ '0')) :
    render_template ['$', c] args = .ok ['$', c] := by
  have hsize : ¬ TEMPLATE_MAX_BYTES < byteLen ([] ++ ['$', c]) := by
    have := Char.utf8Size_le_four c
    simp only [byteLen_cons, byteLen_nil, List.nil_append]
    simp only [TEMPLATE_MAX_BYTES]
    have h4 : ('$' : Char).utf8Size = 1 := by decide
    omega
  rw [render_template, if_pos (by simp [List.contains_cons])]
  rw [show ['$', c] = '$' :: [c] from rfl]
  rw [renderLoop_cons_dollar]
  by_cases hA : c = 'A'
  · subst hA
    simp only [dollarStep]
    rw [if_neg (by decide)]
    rw [if_neg (by decide)]
    show renderLoop args (joinSep [' '] args) [] ([] ++ ['$', 'A']) = _
    rw [renderLoop_nil]
    rw [if_neg (by decide)]
    rfl
  · rw [dollarStep_single_unknown args (joinSep [' '] args) [] c hc1 hc2 hA hc3 hc4]
    rw [if_neg hsize]
    show renderLoop args (joinSep [' '] args) [] ([] ++ ['$', c]) = _
    rw [renderLoop_nil]
    rw [if_neg hsize]
    rfl

theorem renderLoop_ok_byteLen (args : List (List Char)) (all : List Char) :
    ∀ cs out, ∀ res, renderLoop args all cs out = .ok res →
      byteLen res ≤ TEMPLATE_MAX_BYTES := by
  intro cs out
  induction cs, out using renderLoop.induct args all with
  | case1 out hgt =>
    intro res h
    rw [renderLoop, if_pos hgt] at h
    exact absurd h (by simp)
  | case2 out hle =>
    intro res h
    rw [renderLoop, if_neg hle] at h
    cases h
    omega
  | case3 cs out e heq =>
    intro res h
    rw [renderLoop, if_pos (show ('$' : Char) = '$' from rfl)] at h
    split at h
    · exact absurd h (by simp)
    · rename_i rest out2 heq2
      rw [heq] at heq2
      cases heq2
  | case4 cs out rest out2 heq ih =>
    intro res h
    rw [renderLoop, if_pos (show ('$' : Char) = '$' from rfl)] at h
    split at h
    · rename_i e2 heq2
      rw [heq] at heq2
      cases heq2
    · rename_i rest2 out3 heq2
      rw [heq] at heq2
      injection heq2 with hpair
      cases hpair
      exact ih res h
  | case5 c cs out hne ih =>
    intro res h
    rw [renderLoop, if_neg hne] at h
    exact ih res h

theorem render_template_ok_byteLen (t : List Char) (args : List (List Char)) (res : List Char)
    (hc : t.contains '$' = true) (h : render_template t args = .ok res) :
    byteLen res ≤ TEMPLATE_MAX_BYTES := by
  rw [render_template, if_pos hc] at h
  exact renderLoop_ok_byteLen args (joinSep [' '] args) t [] res h

/-- C6 counterexample: three literal readings of the claim fail on the
code.  (1) A dollar-free template above 64 KiB renders without
`OutputTooLarge`.  (2) `${N}` with `N = 2^64` (beyond `usize`) does not
yield the absent-argument empty string: the text is kept with the closing
brace dropped.  (3) `render("$*", args)` is not `args.join(" ")` when the
join exceeds the cap: it errors instead. -/
theorem C6_template_round_trip_counterexample :
    (render_template (List.replicate 65537 'a') [] = .ok (List.replicate 65537 'a') ∧
      TEMPLATE_MAX_BYTES < byteLen (List.replicate 65537 'a')) ∧
    render_template ('$' :: '{' :: ("18446744073709551616".data ++ ['}'])) [] =
      .ok ('$' :: '{' :: "18446744073709551616".data) ∧
    render_template "$*".data [List.replicate 70000 'x'] =
      .error (.outputTooLarge TEMPLATE_MAX_BYTES) := by
  refine ⟨⟨render_no_dollar _ _ (replicate_contains_ne 'a' '$' (by decide) 65537), ?_⟩, ?_, ?_⟩
  · rw [byteLen_replicate]; decide
  · exact render_brace_overflow_eval [] _ (by decide) (by decide) (by decide) (by decide)
  · rw [render_star_eval,
      show joinSep [' '] [List.replicate 70000 'x'] = List.replicate 70000 'x' from rfl]
    rw [if_pos (by rw [byteLen_replicate]; decide)]

/-- C6 (amended): for templates that contain `'$'`, the placeholder
equations hold whenever the substituted output fits the 64 KiB cap, and
any successful rendering of such a template is at most 64 KiB;
`"$*"` and `"$ARGUMENTS"` both error with `OutputTooLarge` when the
joined arguments exceed the cap; `${N}` behaves as specified only for
`N ≤ usize::MAX`, while for every digit string whose value exceeds
`usize::MAX` the text is kept literally with the closing brace dropped
(when that literal fits the cap); `"$$"` is a literal `"$"`; unknown
`$X` is kept verbatim. -/
theorem C6_template_round_trip_amended :
    (∀ args, byteLen (joinSep [' '] args) ≤ TEMPLATE_MAX_BYTES →
      render_template "$*".data args = .ok (joinSep [' '] args)) ∧
    (∀ args, TEMPLATE_MAX_BYTES < byteLen (joinSep [' '] args) →
      render_template "$*".data args = .error (.outputTooLarge TEMPLATE_MAX_BYTES)) ∧
    (∀ args, byteLen (joinSep [' '] args) ≤ TEMPLATE_MAX_BYTES →
      render_template "$ARGUMENTS".data args = .ok (joinSep [' '] args)) ∧
    (∀ args, TEMPLATE_MAX_BYTES < byteLen (joinSep [' '] args) →
      render_template "$ARGUMENTS".data args = .error (.outputTooLarge TEMPLATE_MAX_BYTES)) ∧
    (∀ args, render_template "$$".data args = .ok ['$']) ∧
    (∀ args ds n, ds ≠ [] → (∀ c ∈ ds, c.isDigit = true) → digitsVal ds = n →
      1 ≤ n → n ≤ USIZE_MAX → byteLen (args.getD (n - 1) []) ≤ TEMPLATE_MAX_BYTES →
      render_template ('$' :: '{' :: (ds ++ ['}'])) args = .ok (args.getD (n - 1) [])) ∧
    (∀ args ds, ds ≠ [] → (∀ c ∈ ds, c.isDigit = true) → USIZE_MAX < digitsVal ds →
      ¬ TEMPLATE_MAX_BYTES < byteLen ('$' :: '{' :: ds) →
      render_template ('$' :: '{' :: (ds ++ ['}'])) args = .ok ('$' :: '{' :: ds)) ∧
    (∀ args c, c ≠ '$' → c ≠ '*' → c ≠ '{' → ¬(c.isDigit = true ∧ c ≠ '0') →
      render_template ['$', c] args = .ok ['$', c]) ∧
    (∀ t args res, t.contains '$' = true → render_template t args = .ok res →
      byteLen res ≤ TEMPLATE_MAX_BYTES) := by
  refine ⟨?_, ?_, ?_, ?_, render_dollar_dollar_eval, ?_, render_brace_overflow_eval,
    render_unknown_eval, render_template_ok_byteLen⟩
  · intro args hle
    rw [render_star_eval, if_neg (by omega)]
  · intro args hgt
    rw [render_star_eval, if_pos hgt]
  · intro args hle
    rw [render_arguments_eval, if_neg (by omega)]
  · intro args hgt
    rw [render_arguments_eval, if_pos hgt]
  · intro args ds n hne hdig hval h1 hmax hfit
    rw [render_brace_eval args ds n hne hdig hval h1 hmax, if_neg (by omega)]

/-- Witness for C6 (amended) at concrete inputs, one per placeholder
family: `"$*"` and `"$ARGUMENTS"` below and above the cap, `"$$"`,
`${2}`, an overflowing `${18446744073709551616}`, and an unknown `$%`. -/
theorem C6_template_round_trip_amended_witness :
    render_template "$*".data ["hi".data, "there".data] = .ok "hi there".data ∧
    render_template "$*".data [List.replicate 65600 'y'] =
      .error (.outputTooLarge TEMPLATE_MAX_BYTES) ∧
    render_template "$ARGUMENTS".data ["hi".data, "there".data] = .ok "hi there".data ∧
    render_template "$ARGUMENTS".data [List.replicate 65600 'y'] =
      .error (.outputTooLarge TEMPLATE_MAX_BYTES) ∧
    render_template "$$".data [] = .ok ['$'] ∧
    render_template ('$' :: '{' :: (['2'] ++ ['}'])) ["a".data, "b".data] = .ok "b".data ∧
    render_template ('$' :: '{' :: ("18446744073709551616".data ++ ['}'])) ["a".data] =
      .ok ('$' :: '{' :: "18446744073709551616".data) ∧
    render_template ['$', '%'] [] = .ok ['$', '%'] := by
  obtain ⟨h1, h2, h3, h4, h5, h6, h7, h8, hcap⟩ := C6_template_round_trip_amended
  have hbig : TEMPLATE_MAX_BYTES < byteLen (joinSep [' '] [List.replicate 65600 'y']) := by
    rw [show joinSep [' '] [List.replicate 65600 'y'] = List.replicate 65600 'y' from rfl]
    rw [byteLen_replicate]
    decide
  refine ⟨?_, h2 [List.replicate 65600 'y'] hbig, ?_, h4 [List.replicate 65600 'y'] hbig,
    h5 [], ?_, h7 ["a".data] "18446744073709551616".data (by decide) (by decide) (by decide)
      (by decide),
    h8 [] '%' (by decide) (by decide) (by decide) (by decide)⟩
  · rw [h1 ["hi".data, "there".data] (by decide)]
    rw [show joinSep [' '] ["hi".data, "there".data] = "hi there".data from by decide]
  · rw [h3 ["hi".data, "there".data] (by decide)]
    rw [show joinSep [' '] ["hi".data, "there".data] = "hi there".data from by decide]
  · rw [h6 ["a".data, "b".data] ['2'] 2 (by decide) (by decide) (by decide) (by decide)
      (by decide) (by decide)]
    rw [show (["a".data, "b".data].getD (2 - 1) []) = "b".data from by decide]



/-! ## normalize_id lemmas -/

theorem isAlnumLower_ne_hyphen (c : Char) (h : isAlnumLower c = true) : c ≠ '-' := by
  intro he
  subst he
  exact absurd h (by decide)

theorem toLower_of_allowed (c : Char) (h : isAlnumLower c = true ∨ c = '-') :
    Char.toLower c = c := by
  rcases h with h | h
  · have h2 := of_decide_eq_true h
    unfold Char.toLower
    rw [if_neg]
    rcases h2 with ⟨h3, h4⟩ | ⟨h3, h4⟩
    · have g3 : ('a' : Char).toNat ≤ c.toNat := h3
      have g4 : c.toNat ≤ ('z' : Char).toNat := h4
      simp only [show ('a' : Char).toNat = 97 from rfl] at g3
      simp only [show ('z' : Char).toNat = 122 from rfl] at g4
      omega
    · have g3 : ('0' : Char).toNat ≤ c.toNat := h3
      have g4 : c.toNat ≤ ('9' : Char).toNat := h4
      simp only [show ('0' : Char).toNat = 48 from rfl] at g3
      simp only [show ('9' : Char).toNat = 57 from rfl] at g4
      omega
  · subst h
    decide

theorem noHyphenRun_cons_iff (c : Char) (l : List Char) :
    noHyphenRun (c :: l) = true ↔
      ((l.head? = some '-' → c ≠ '-') ∧ noHyphenRun l = true) := by
  cases l with
  | nil => simp [noHyphenRun]
  | cons c2 r =>
    simp only [noHyphenRun, Bool.and_eq_true, List.head?_cons, Option.some.injEq]
    constructor
    · rintro ⟨h1, h2⟩
      refine ⟨fun he hc => ?_, h2⟩
      subst hc; subst he
      simp at h1
    · rintro ⟨h1, h2⟩
      refine ⟨?_, h2⟩
      by_cases hc : c = '-'
      · by_cases he : c2 = '-'
        · exact absurd hc (h1 he)
        · simp [he]
      · simp [hc]

theorem noHyphenRun_append_single (a : List Char) (x : Char) :
    noHyphenRun (a ++ [x]) = true ↔
      (noHyphenRun a = true ∧ (a.getLast? = some '-' → x ≠ '-')) := by
  induction a with
  | nil => simp [noHyphenRun]
  | cons c as ih =>
    rw [List.cons_append, noHyphenRun_cons_iff, noHyphenRun_cons_iff]
    cases as with
    | nil =>
      by_cases hx : x = '-' <;> by_cases hc : c = '-' <;>
        simp_all [noHyphenRun]
    | cons a2 as2 =>
      rw [ih]
      simp only [List.cons_append, List.head?_cons]
      rw [List.getLast?_cons_cons]
      tauto

theorem noHyphenRun_reverse (l : List Char) :
    noHyphenRun l.reverse = noHyphenRun l := by
  induction l with
  | nil => rfl
  | cons c rest ih =>
    rw [List.reverse_cons]
    rw [Bool.eq_iff_iff, noHyphenRun_append_single, noHyphenRun_cons_iff]
    rw [List.getLast?_reverse]
    rw [Bool.eq_iff_iff] at ih
    tauto

theorem noHyphenRun_append_left (a b : List Char)
    (h : noHyphenRun (a ++ b) = true) : noHyphenRun b = true := by
  induction a with
  | nil => exact h
  | cons c t ih =>
    rw [List.cons_append, noHyphenRun_cons_iff] at h
    exact ih h.2

theorem dropWhile_suffix {α : Type} (p : α → Bool) (l : List α) :
    l.dropWhile p <:+ l := by
  induction l with
  | nil => simp
  | cons a t ih =>
    rw [List.dropWhile_cons]
    split
    · exact ih.trans (List.suffix_cons a t)
    · exact List.suffix_rfl

theorem dropWhile_hyphen_head (l : List Char) :
    (l.dropWhile (fun c => c = '-')).head? ≠ some '-' := by
  induction l with
  | nil => simp
  | cons c t ih =>
    rw [List.dropWhile_cons]
    split
    · exact ih
    · rename_i h
      simp only [List.head?_cons, ne_eq, Option.some.injEq]
      intro he
      exact h (by simp [he])

theorem trimHyphens_noRun (l : List Char) (h : noHyphenRun l = true) :
    noHyphenRun (trimHyphens l) = true := by
  unfold trimHyphens
  rw [noHyphenRun_reverse]
  obtain ⟨a1, ha1⟩ := dropWhile_suffix (fun c => c = '-') ((l.dropWhile (fun c => c = '-')).reverse)
  have h1 : noHyphenRun (l.dropWhile (fun c => c = '-')) = true := by
    obtain ⟨a0, ha0⟩ := dropWhile_suffix (fun c => c = '-') l
    exact noHyphenRun_append_left a0 _ (by rw [ha0]; exact h)
  have h2 : noHyphenRun ((l.dropWhile (fun c => c = '-')).reverse) = true := by
    rw [noHyphenRun_reverse]; exact h1
  exact noHyphenRun_append_left a1 _ (by rw [ha1]; exact h2)

theorem suffix_getLast {α : Type} (a b : List α) (h : a <:+ b) (hne : a ≠ []) :
    a.getLast? = b.getLast? := by
  obtain ⟨t, ht⟩ := h
  rw [← ht, List.getLast?_append_of_ne_nil t hne]

theorem trimHyphens_head (l : List Char) :
    (trimHyphens l).head? ≠ some '-' := by
  unfold trimHyphens
  rw [List.head?_reverse]
  by_cases hw : ((l.dropWhile (fun c => c = '-')).reverse.dropWhile (fun c => c = '-')) = []
  · rw [hw]; simp
  · rw [suffix_getLast _ _ (dropWhile_suffix _ _) hw]
    rw [List.getLast?_reverse]
    exact dropWhile_hyphen_head l

theorem trimHyphens_getLast (l : List Char) :
    (trimHyphens l).getLast? ≠ some '-' := by
  unfold trimHyphens
  rw [List.getLast?_reverse]
  exact dropWhile_hyphen_head _

theorem trimHyphens_subset (l : List Char) :
    ∀ c ∈ trimHyphens l, c ∈ l := by
  intro c hc
  unfold trimHyphens at hc
  rw [List.mem_reverse] at hc
  obtain ⟨a1, ha1⟩ := dropWhile_suffix (fun x => x = '-') ((l.dropWhile (fun x => x = '-')).reverse)
  have hc2 : c ∈ (l.dropWhile (fun x => x = '-')).reverse := by
    rw [← ha1]; exact List.mem_append_right a1 hc
  rw [List.mem_reverse] at hc2
  obtain ⟨a0, ha0⟩ := dropWhile_suffix (fun x => x = '-') l
  rw [← ha0]
  exact List.mem_append_right a0 hc2

theorem normFold_chars (l : List Char) :
    ∀ prev, ∀ c ∈ normFold prev l, isAlnumLower c = true ∨ c = '-' := by
  induction l with
  | nil => intro prev c hc; simp [normFold] at hc
  | cons a t ih =>
    intro prev c hc
    rw [normFold] at hc
    split at hc
    · rename_i ha
      rcases List.mem_cons.mp hc with hc2 | hc2
      · exact Or.inl (hc2 ▸ ha)
      · exact ih false c hc2
    · split at hc
      · split at hc
        · exact ih true c hc
        · rcases List.mem_cons.mp hc with hc2 | hc2
          · exact Or.inr hc2
          · exact ih true c hc2
      · exact ih prev c hc

theorem normFold_shape (l : List Char) :
    ∀ prev, noHyphenRun (normFold prev l) = true ∧
      (prev = true → (normFold prev l).head? ≠ some '-') := by
  induction l with
  | nil => intro prev; simp [normFold, noHyphenRun]
  | cons a t ih =>
    intro prev
    rw [normFold]
    split
    · rename_i ha
      constructor
      · rw [noHyphenRun_cons_iff]
        exact ⟨fun _ => isAlnumLower_ne_hyphen a ha, (ih false).1⟩
      · intro _
        simp only [List.head?_cons, ne_eq, Option.some.injEq]
        exact isAlnumLower_ne_hyphen a ha
    · split
      · by_cases hprev : prev = true
        · rw [if_pos hprev]
          exact ⟨(ih true).1, fun _ => (ih true).2 rfl⟩
        · rw [if_neg hprev]
          constructor
          · rw [noHyphenRun_cons_iff]
            exact ⟨fun hh _ => (ih true).2 rfl hh, (ih true).1⟩
          · intro hp
            exact absurd hp hprev
      · exact ih prev

theorem map_toLower_fixed (u : List Char)
    (h : ∀ c ∈ u, isAlnumLower c = true ∨ c = '-') : u.map Char.toLower = u := by
  induction u with
  | nil => rfl
  | cons c t ih =>
    rw [List.map_cons, toLower_of_allowed c (h c (by simp)),
      ih (fun x hx => h x (by simp [hx]))]

theorem normFold_fixed (u : List Char) :
    ∀ prev, (∀ c ∈ u, isAlnumLower c = true ∨ c = '-') → noHyphenRun u = true →
      (prev = true → u.head? ≠ some '-') → normFold prev u = u := by
  induction u with
  | nil => intro prev _ _ _; rfl
  | cons c t ih =>
    intro prev hall hrun hprev
    rcases hall c (by simp) with hc | hc
    · rw [normFold, if_pos hc]
      rw [ih false (fun x hx => hall x (by simp [hx])) ((noHyphenRun_cons_iff c t).mp hrun).2
        (by simp)]
    · subst hc
      have hp : prev = false := by
        cases prev
        · rfl
        · exact absurd (by simp) (hprev rfl)
      subst hp
      rw [normFold, if_neg (by decide), if_pos (by decide), if_neg (by decide)]
      rw [ih true (fun x hx => hall x (by simp [hx])) ((noHyphenRun_cons_iff _ t).mp hrun).2
        (fun _ => fun hh => (((noHyphenRun_cons_iff _ t).mp hrun).1 hh) rfl)]

theorem dropWhile_of_head_ne {α : Type} (p : α → Bool) (l : List α)
    (h : ∀ c, l.head? = some c → p c = false) : l.dropWhile p = l := by
  cases l with
  | nil => rfl
  | cons a t =>
    rw [List.dropWhile_cons, if_neg]
    rw [h a rfl]
    simp

theorem trimHyphens_fixed (u : List Char)
    (h1 : u.head? ≠ some '-') (h2 : u.getLast? ≠ some '-') : trimHyphens u = u := by
  unfold trimHyphens
  rw [dropWhile_of_head_ne _ u (fun c hc => by
    simp only [decide_eq_false_iff_not]
    intro he
    exact h1 (by rw [hc, he]))]
  rw [dropWhile_of_head_ne _ u.reverse (fun c hc => by
    simp only [decide_eq_false_iff_not]
    intro he
    rw [List.head?_reverse] at hc
    exact h2 (by rw [hc, he]))]
  exact List.reverse_reverse u

theorem isNormalId_iff (l : List Char) :
    isNormalId l = true ↔
      ((∀ c ∈ l, isAlnumLower c = true ∨ c = '-') ∧ noHyphenRun l = true ∧
        l.head? ≠ some '-' ∧ l.getLast? ≠ some '-' ∧ l ≠ []) := by
  unfold isNormalId
  simp only [Bool.and_eq_true, List.all_eq_true, Bool.or_eq_true, decide_eq_true_eq,
    Bool.not_eq_true', List.isEmpty_eq_false, ne_eq]
  tauto

theorem normalize_id_normal (s : List Char) : isNormalId (normalize_id s) = true := by
  unfold normalize_id
  split
  · decide
  · rename_i hne
    rw [isNormalId_iff]
    refine ⟨?_, ?_, ?_, ?_, hne⟩
    · intro c hc
      exact normFold_chars _ false c (trimHyphens_subset _ c hc)
    · exact trimHyphens_noRun _ (normFold_shape _ false).1
    · exact trimHyphens_head _
    · exact trimHyphens_getLast _

theorem normalize_id_fixed (r : List Char) (h : isNormalId r = true) :
    normalize_id r = r := by
  obtain ⟨hall, hrun, hhead, hlast, hne⟩ := (isNormalId_iff r).mp h
  unfold normalize_id
  rw [map_toLower_fixed r hall]
  rw [normFold_fixed r false hall hrun (by simp)]
  rw [trimHyphens_fixed r hhead hlast]
  rw [if_neg hne]

/-- C7: `normalize_id` is idempotent; its result uses only `[a-z0-9-]`,
has no hyphen runs and no hyphen at either end, and is nonempty; input
that normalizes to nothing yields `"unnamed"`. -/
theorem C7_normalize_id_idempotent (s : List Char) :
    normalize_id (normalize_id s) = normalize_id s ∧
    isNormalId (normalize_id s) = true ∧
    normalize_id [] = "unnamed".data := by
  refine ⟨normalize_id_fixed _ (normalize_id_normal s), normalize_id_normal s, by decide⟩


/-! ## run_turn retry lemmas -/

theorem runTurnLoop_sleeps_le (maxR : Nat) (backoff : Nat → Nat) :
    ∀ (attempts : List (Except CodexErr Nat)) (r : Nat) res ds,
      runTurnLoop maxR backoff attempts r = some (res, ds) → ds.length ≤ maxR - r := by
  intro attempts
  induction attempts with
  | nil => intro r res ds h; exact absurd h (by rw [runTurnLoop.eq_def]; simp)
  | cons a rest ih =>
    intro r res ds h
    rw [runTurnLoop.eq_def] at h
    cases a with
    | ok v =>
      simp only [] at h
      cases h
      simp
    | error e =>
      simp only [] at h
      split at h
      · cases h; simp
      · split at h
        · rename_i hr
          rcases hrec : runTurnLoop maxR backoff rest (r + 1) with _ | ⟨res2, ds2⟩
          · rw [hrec] at h
            exact Option.noConfusion h
          · rw [hrec] at h
            simp only [] at h
            injection h with hpair
            injection hpair with hres hds
            subst hres
            subst hds
            have := ih (r + 1) res2 ds2 hrec
            simp only [List.length_cons]
            omega
        · cases h; simp

/-- C3 counterexample: an error outside the four immediate kinds and
outside the stream class (`InternalAgentDied`, hit by the catch-all arm)
is retried, not fatal: the turn succeeds on the second attempt after one
back-off sleep. -/
theorem C3_retry_counterexample :
    run_turn 5 (fun n => 100 * n) [.error .internalAgentDied, .ok 7] =
      some (.ok 7, [100]) := rfl

/-- C3 (amended): Interrupted/EnvVar/UsageLimitReached/UsageNotIncluded
are returned immediately with no sleep; every other error kind —
stream errors and the catch-all alike — is retried while the retry count
is below the provider cap, sleeping the server-supplied delay for a
stream error that carries one and `backoff` otherwise; once the cap is
exhausted the error is returned; at most `maxRetries` sleeps ever occur. -/
theorem C3_retry_policy_amended :
    (∀ (maxR : Nat) (backoff : Nat → Nat) rest r e, isImmediateErr e = true →
      runTurnLoop maxR backoff (.error e :: rest) r = some (.error e, [])) ∧
    (∀ (maxR : Nat) (backoff : Nat → Nat) rest r e, isImmediateErr e = false → r < maxR →
      runTurnLoop maxR backoff (.error e :: rest) r =
        (match runTurnLoop maxR backoff rest (r + 1) with
          | none => none
          | some (res, ds) => some (res, retryDelay backoff e (r + 1) :: ds))) ∧
    (∀ (maxR : Nat) (backoff : Nat → Nat) rest r e, isImmediateErr e = false → ¬ r < maxR →
      runTurnLoop maxR backoff (.error e :: rest) r = some (.error e, [])) ∧
    (∀ (maxR : Nat) (backoff : Nat → Nat) (v : Nat) rest r,
      runTurnLoop maxR backoff (.ok v :: rest) r = some (.ok v, [])) ∧
    (∀ (maxR : Nat) (backoff : Nat → Nat) attempts res ds,
      run_turn maxR backoff attempts = some (res, ds) → ds.length ≤ maxR) := by
  refine ⟨?_, ?_, ?_, ?_, ?_⟩
  · intro maxR backoff rest r e he
    rw [runTurnLoop.eq_def]
    simp [he]
  · intro maxR backoff rest r e he hr
    rw [runTurnLoop.eq_def]
    simp [he, hr]
  · intro maxR backoff rest r e he hr
    rw [runTurnLoop.eq_def]
    simp [he, hr]
  · intro maxR backoff v rest r
    rfl
  · intro maxR backoff attempts res ds h
    have := runTurnLoop_sleeps_le maxR backoff attempts 0 res ds h
    omega

/-- Witness for C3 (amended). -/
theorem C3_retry_policy_amended_witness :
    runTurnLoop 3 (fun n => 10 * n) [.error .interrupted, .ok 1] 0 =
      some (.error .interrupted, []) ∧
    runTurnLoop 3 (fun n => 10 * n) [.error (.stream "disconnect" (some 250)), .ok 1] 0 =
      some (.ok 1, [250]) ∧
    runTurnLoop 3 (fun n => 10 * n) [.error .sandbox, .ok 1] 3 =
      some (.error .sandbox, []) := by
  obtain ⟨h1, h2, h3, h4, h5⟩ := C3_retry_policy_amended
  refine ⟨h1 3 (fun n => 10 * n) [.ok 1] 0 .interrupted (by decide), ?_,
    h3 3 (fun n => 10 * n) [.ok 1] 3 .sandbox (by decide) (by decide)⟩
  rw [h2 3 (fun n => 10 * n) [.ok 1] 0 (.stream "disconnect" (some 250)) (by decide)
    (by decide)]
  rw [h4 3 (fun n => 10 * n) 1 [] 1]
  rfl


/-! ## Sub-agent isolation lemmas -/

theorem drainStep_conversation_mono (respond : ResponseItem → ResponseItem)
    (item : ResponseItem) (st : SubSt) :
    st.conversation <+: (drainStep respond item st).conversation := by
  unfold drainStep
  split
  · exact List.prefix_append _ _
  · split
    · split
      · exact List.prefix_append _ _
      · exact List.prefix_append _ _
    · exact List.prefix_append _ _

theorem drainTurn_conversation_mono (respond : ResponseItem → ResponseItem)
    (evs : List SubEvent) :
    ∀ st : SubSt, st.conversation <+: (drainTurn respond evs st).1.conversation := by
  induction evs with
  | nil => intro st; exact List.prefix_rfl
  | cons ev rest ih =>
    intro st
    cases ev with
    | itemDone item =>
      exact (drainStep_conversation_mono respond item st).trans (ih (drainStep respond item st))
    | completed =>
      show st.conversation <+:
        (if st.pending.isEmpty then (st, true) else (st, false)).1.conversation
      split <;> exact List.prefix_rfl
    | streamErr msg => exact List.prefix_rfl
    | textDelta => exact ih st
    | otherEvent => exact ih st

/-- C2 counterexample: with parseable arguments but an unknown agent
name, `handle_subagent_run` records only `SubAgentStart` into parent
history — `describe_agent` fails after the start marker was already
recorded, so exactly one item (not two) is added. -/
theorem C2_subagent_describe_failure_counterexample :
    (handle_subagent_run (fun i => i) (some ⟨"docs", "say hi"⟩) none []).1 =
      [.subAgentStart "docs" "say hi"] ∧
    ((handle_subagent_run (fun i => i) (some ⟨"docs", "say hi"⟩) none []).1).length ≠ 2 := by
  exact ⟨rfl, by decide⟩

/-- C2 (amended): every item `handle_subagent_run` records into parent
history is a `SubAgentStart` or `SubAgentEnd` marker — no nested
assistant message, tool call, or tool-call output ever reaches parent
history, whatever the nested run does; when the arguments parse and the
agent description succeeds, exactly the pair `[SubAgentStart,
SubAgentEnd]` is recorded (in that order, around the nested run); when
the description fails after a successful parse, only `SubAgentStart` is
recorded; and the nested loop only ever appends to its local
conversation buffer. -/
theorem C2_subagent_isolation_amended
    (respond : ResponseItem → ResponseItem) (parse : Option RunArgs)
    (describe : Option String) (streams : List (Option (List SubEvent))) :
    (∀ x ∈ (handle_subagent_run respond parse describe streams).1,
      (∃ n d, x = .subAgentStart n d) ∨ (∃ n ok, x = .subAgentEnd n ok)) ∧
    (∀ args body, parse = some args → describe = some body →
      ∃ ok, (handle_subagent_run respond parse describe streams).1 =
        [.subAgentStart args.name args.task, .subAgentEnd args.name ok]) ∧
    (∀ args, parse = some args → describe = none →
      (handle_subagent_run respond parse describe streams).1 =
        [.subAgentStart args.name args.task]) ∧
    (∀ evs st, st.conversation <+: (drainTurn respond evs st).1.conversation) := by
  refine ⟨?_, ?_, ?_, fun evs st => drainTurn_conversation_mono respond evs st⟩
  · intro x hx
    cases parse with
    | none => simp [handle_subagent_run] at hx
    | some args =>
      cases describe with
      | none =>
        simp only [handle_subagent_run, List.mem_singleton] at hx
        exact Or.inl ⟨args.name, args.task, hx⟩
      | some body =>
        simp only [handle_subagent_run] at hx
        rcases List.mem_cons.mp hx with hx2 | hx2
        · exact Or.inl ⟨args.name, args.task, hx2⟩
        · rcases List.mem_cons.mp hx2 with hx3 | hx3
          · exact Or.inr ⟨args.name, _, hx3⟩
          · simp at hx3
  · intro args body hp hd
    subst hp
    subst hd
    exact ⟨_, rfl⟩
  · intro args hp hd
    subst hp
    subst hd
    rfl

/-- Witness for C2 (amended) on a concrete nested run: the sub-agent
emits an assistant message and a function call with its output, the
local conversation holds them all, and parent history gets exactly the
two markers. -/
theorem C2_subagent_isolation_amended_witness :
    (∀ x ∈ (handle_subagent_run (fun _ => .functionCallOutput "c1" "done")
        (some ⟨"docs", "say hi"⟩) (some "You are an agent.")
        [some [.itemDone (.message "assistant" ["hi from agent"]),
          .itemDone (.functionCall "shell" "{}" "c1"), .completed],
          some [.itemDone (.message "assistant" ["bye"]), .completed]]).1,
      (∃ n d, x = .subAgentStart n d) ∨ (∃ n ok, x = .subAgentEnd n ok)) ∧
    (∃ ok, (handle_subagent_run (fun _ => .functionCallOutput "c1" "done")
        (some ⟨"docs", "say hi"⟩) (some "You are an agent.")
        [some [.itemDone (.message "assistant" ["hi from agent"]),
          .itemDone (.functionCall "shell" "{}" "c1"), .completed],
          some [.itemDone (.message "assistant" ["bye"]), .completed]]).1 =
      [.subAgentStart "docs" "say hi", .subAgentEnd "docs" ok]) := by
  have h := C2_subagent_isolation_amended (fun _ => .functionCallOutput "c1" "done")
    (some ⟨"docs", "say hi"⟩) (some "You are an agent.")
    [some [.itemDone (.message "assistant" ["hi from agent"]),
      .itemDone (.functionCall "shell" "{}" "c1"), .completed],
      some [.itemDone (.message "assistant" ["bye"]), .completed]]
  exact ⟨h.1, h.2.1 ⟨"docs", "say hi"⟩ "You are an agent." rfl rfl⟩



/-! ## Exec-output formatting lemmas -/

theorem splitNl_ne_nil (s : List Char) : splitNl s ≠ [] := by
  cases s with
  | nil => simp [splitNl]
  | cons c rest =>
    rw [splitNl]
    split
    · simp
    · split <;> simp

theorem splitNl_length (s : List Char) :
    (splitNl s).length = s.count '\n' + 1 := by
  induction s with
  | nil => simp [splitNl]
  | cons c rest ih =>
    rw [splitNl]
    split
    · rename_i hc
      subst hc
      simp [List.count_cons, ih]
    · rename_i hc
      split
      · rename_i heq
        exact absurd heq (splitNl_ne_nil rest)
      · rename_i p ps heq
        have h2 : ps.length + 1 = rest.count '\n' + 1 := by
          rw [← ih, heq]
          simp
        have hcc : (c == '\n') = false := by
          simp only [beq_eq_false_iff_ne, ne_eq]
          exact hc
        simp [List.count_cons, hcc]
        omega

theorem rustLines_length_le (s : List Char) :
    (rustLines s).length ≤ (splitNl s).length := by
  unfold rustLines
  split
  · rename_i last heq
    split
    · simp only [List.length_map]
      have := List.length_dropLast (splitNl s)
      omega
    · simp only [List.length_append, List.length_map, List.length_cons, List.length_nil]
      have h1 := List.length_dropLast (splitNl s)
      have h2 : (splitNl s).length ≠ 0 := by
        intro h0
        exact splitNl_ne_nil s (List.length_eq_zero.mp h0)
      omega
  · simp

theorem linesCount_le (s : List Char) :
    (rustLines s).length ≤ s.count '\n' + 1 := by
  have := rustLines_length_le s
  rw [splitNl_length] at this
  exact this

theorem splitNl_no_nl (s : List Char) : ∀ p ∈ splitNl s, '\n' ∉ p := by
  induction s with
  | nil => intro p hp; simp [splitNl] at hp; simp [hp]
  | cons c rest ih =>
    intro p hp
    rw [splitNl] at hp
    split at hp
    · rcases List.mem_cons.mp hp with h2 | h2
      · simp [h2]
      · exact ih p h2
    · rename_i hc
      split at hp
      · rename_i heq
        exact absurd heq (splitNl_ne_nil rest)
      · rename_i q qs heq
        rcases List.mem_cons.mp hp with h2 | h2
        · subst h2
          intro hmem
          rcases List.mem_cons.mp hmem with h3 | h3
          · exact hc h3.symm
          · exact ih q (by rw [heq]; simp) h3
        · exact ih p (by rw [heq]; simp [h2])

theorem stripCr_subset (l : List Char) : ∀ c ∈ stripCr l, c ∈ l := by
  intro c hc
  unfold stripCr at hc
  split at hc
  · exact List.dropLast_subset l hc
  · exact hc

theorem getLast?_mem_self {α : Type} (l : List α) (a : α) (h : l.getLast? = some a) :
    a ∈ l := by
  cases l with
  | nil => cases h
  | cons b t =>
    have := List.getLast?_eq_getLast (b :: t) (by simp)
    rw [this] at h
    injection h with h2
    rw [← h2]
    exact List.getLast_mem _

theorem rustLines_no_nl (s : List Char) : ∀ p ∈ rustLines s, '\n' ∉ p := by
  intro p hp
  unfold rustLines at hp
  split at hp
  · rename_i last heq
    split at hp
    · rcases List.mem_map.mp hp with ⟨q, hq, hpq⟩
      intro hmem
      exact splitNl_no_nl s q (List.dropLast_subset _ hq)
        (stripCr_subset q '\n' (hpq.symm ▸ hmem))
    · rcases List.mem_append.mp hp with h2 | h2
      · rcases List.mem_map.mp h2 with ⟨q, hq, hpq⟩
        intro hmem
        exact splitNl_no_nl s q (List.dropLast_subset _ hq)
          (stripCr_subset q '\n' (hpq.symm ▸ hmem))
      · have hp2 : p = last := by simpa using h2
        subst hp2
        exact splitNl_no_nl s p (getLast?_mem_self _ p heq)
  · rename_i heq
    rcases List.mem_map.mp hp with ⟨q, hq, hpq⟩
    intro hmem
    exact splitNl_no_nl s q (List.dropLast_subset _ hq)
      (stripCr_subset q '\n' (hpq.symm ▸ hmem))

theorem natCharsAux_no_nl (fuel : Nat) : ∀ n, '\n' ∉ natCharsAux fuel n := by
  induction fuel with
  | zero => intro n; simp [natCharsAux]
  | succ f ih =>
    intro n
    rw [natCharsAux]
    split
    · intro hmem
      have h3 : '\n' = digitChar n := by simpa using hmem
      unfold digitChar at h3
      split at h3 <;> exact absurd h3 (by decide)
    · intro hmem
      rcases List.mem_append.mp hmem with h2 | h2
      · exact ih (n / 10) h2
      · have h3 : '\n' = digitChar n := by simpa using h2
        unfold digitChar at h3
        split at h3 <;> exact absurd h3 (by decide)

theorem natChars_no_nl (n : Nat) : '\n' ∉ natChars n := natCharsAux_no_nl (n + 1) n

theorem count_nl_elisionMarker (a b : Nat) : (elisionMarker a b).count '\n' = 3 := by
  unfold elisionMarker
  simp only [List.count_cons, List.count_append]
  rw [List.count_eq_zero.mpr (natChars_no_nl a), List.count_eq_zero.mpr (natChars_no_nl b)]
  decide

theorem count_nl_joinSep (L : List (List Char)) (h : ∀ p ∈ L, '\n' ∉ p) :
    (joinSep ['\n'] L).count '\n' = L.length - 1 := by
  induction L with
  | nil => simp [joinSep]
  | cons x xs ih =>
    cases xs with
    | nil =>
      show (joinSep ['\n'] [x]).count '\n' = 1 - 1
      unfold joinSep
      simp [List.count_eq_zero.mpr (h x (by simp))]
    | cons y ys =>
      show (x ++ ['\n'] ++ joinSep ['\n'] (y :: ys)).count '\n' = (y :: ys).length + 1 - 1
      simp only [List.count_append]
      rw [List.count_eq_zero.mpr (h x (by simp))]
      rw [ih (fun p hp => h p (by simp [hp]))]
      simp
      omega

theorem count_le_of_isPrefix {a b : List Char} (h : a <+: b) (c : Char) :
    a.count c ≤ b.count c := by
  obtain ⟨t, ht⟩ := h
  rw [← ht, List.count_append]
  omega

theorem count_le_of_isSuffix {a b : List Char} (h : a <:+ b) (c : Char) :
    a.count c ≤ b.count c := by
  obtain ⟨t, ht⟩ := h
  rw [← ht, List.count_append]
  omega

theorem count_nl_fmtHeadBlock (s : List Char) : (fmtHeadBlock s).count '\n' ≤ 127 := by
  unfold fmtHeadBlock
  rw [count_nl_joinSep _ (fun p hp => rustLines_no_nl s p (List.mem_of_mem_take hp))]
  have h1 : ((rustLines s).take (fmtHeadTake s)).length ≤ fmtHeadTake s := by
    simp [List.length_take]
  have h2 : fmtHeadTake s ≤ 128 := by
    unfold fmtHeadTake
    have : MODEL_FORMAT_HEAD_LINES = 128 := by decide
    omega
  omega

theorem count_nl_fmtTailBlock (s : List Char) : (fmtTailBlock s).count '\n' ≤ 127 := by
  unfold fmtTailBlock
  split
  · rw [count_nl_joinSep _ (fun p hp => rustLines_no_nl s p (List.mem_of_mem_drop hp))]
    have h1 : ((rustLines s).drop ((rustLines s).length - fmtTailTake s)).length ≤ fmtTailTake s := by
      simp [List.length_drop]
      omega
    have h2 : fmtTailTake s ≤ 128 := by
      unfold fmtTailTake
      have : MODEL_FORMAT_TAIL_LINES = 128 := by decide
      omega
    omega
  · simp

theorem format_byteLen_le (s : List Char) :
    byteLen (format_exec_output_str s) ≤ MODEL_FORMAT_MAX_BYTES := by
  unfold format_exec_output_str
  split
  · rename_i hfit
    exact hfit.1
  · split
    · exact take_bytes_byteLen_le _ _
    · rename_i hfit hdeg
      rw [byteLen_append, byteLen_append]
      have h1 : byteLen (fmtHeadPart s) ≤ fmtHeadBudget s := take_bytes_byteLen_le _ _
      have h2 : byteLen (fmtTailPart s) ≤ fmtRemaining s := take_last_byteLen_le _ _
      have h3 : fmtRemaining s =
          MODEL_FORMAT_MAX_BYTES - (byteLen (fmtHeadPart s) + byteLen (fmtMarker s)) := by
        unfold fmtRemaining
        rw [byteLen_append]
      have hc1 : MODEL_FORMAT_MAX_BYTES = 10240 := by decide
      have hc2 : min MODEL_FORMAT_HEAD_BYTES MODEL_FORMAT_MAX_BYTES = 5120 := by decide
      by_cases htb : fmtTailBudget s = 0
      · have hm : ¬ MODEL_FORMAT_MAX_BYTES ≤ byteLen (fmtMarker s) := fun hle => hdeg ⟨htb, hle⟩
        have h4 : fmtHeadBudget s = MODEL_FORMAT_MAX_BYTES - byteLen (fmtMarker s) := by
          unfold fmtHeadBudget
          rw [if_pos htb]
        omega
      · have h5 : fmtHeadBudget s = min MODEL_FORMAT_HEAD_BYTES MODEL_FORMAT_MAX_BYTES := by
          unfold fmtHeadBudget
          rw [if_neg htb]
        have h6 : fmtTailBudget s =
            MODEL_FORMAT_MAX_BYTES -
              (min MODEL_FORMAT_HEAD_BYTES MODEL_FORMAT_MAX_BYTES + byteLen (fmtMarker s)) := rfl
        omega

theorem format_linesCount_le (s : List Char) :
    (rustLines (format_exec_output_str s)).length ≤ 258 := by
  unfold format_exec_output_str
  split
  · rename_i hfit
    have : MODEL_FORMAT_MAX_LINES = 256 := by decide
    omega
  · split
    · have hle := count_le_of_isPrefix
        (take_bytes_isPrefix (fmtMarker s) MODEL_FORMAT_MAX_BYTES) '\n'
      have hm : (fmtMarker s).count '\n' = 3 := count_nl_elisionMarker _ _
      have := linesCount_le (take_bytes_at_char_boundary (fmtMarker s) MODEL_FORMAT_MAX_BYTES)
      omega
    · have hhd : List.count '\n' (fmtHeadPart s) ≤ List.count '\n' (fmtHeadBlock s) :=
        count_le_of_isPrefix (take_bytes_isPrefix _ _) '\n'
      have htl : List.count '\n' (fmtTailPart s) ≤ List.count '\n' (fmtTailBlock s) :=
        count_le_of_isSuffix (take_last_isSuffix _ _) '\n'
      have hh := count_nl_fmtHeadBlock s
      have ht := count_nl_fmtTailBlock s
      have hm : (fmtMarker s).count '\n' = 3 := count_nl_elisionMarker _ _
      have hlc := linesCount_le (fmtHeadPart s ++ fmtMarker s ++ fmtTailPart s)
      have hca : (fmtHeadPart s ++ fmtMarker s ++ fmtTailPart s).count '\n' =
          (fmtHeadPart s).count '\n' + (fmtMarker s).count '\n' + (fmtTailPart s).count '\n' := by
        rw [List.count_append, List.count_append]
      omega

theorem fmtOmitted_eq (s : List Char) : fmtOmitted s = (rustLines s).length - 256 := by
  unfold fmtOmitted fmtTailTake fmtHeadTake
  have h1 : MODEL_FORMAT_HEAD_LINES = 128 := by decide
  have h2 : MODEL_FORMAT_TAIL_LINES = 128 := by decide
  rw [h1, h2]
  omega

set_option maxRecDepth 1000000 in
/-- C5 counterexample: an input of 257 empty lines (well under the byte
cap) formats to an output of 257 lines — the claimed 256-line bound on
the formatted output is violated, because the head block (≤128 lines),
the marker line, a blank line, and the tail block (≤128 lines) can add
up to more than 256 lines. -/
theorem C5_exec_output_cap_counterexample :
    byteLen (List.replicate 257 '\n') ≤ MODEL_FORMAT_MAX_BYTES ∧
    256 < (rustLines (format_exec_output_str (List.replicate 257 '\n'))).length := by
  constructor
  · decide
  · decide

/-- C5 (amended): the model-facing formatted output has byte length at
most 10 KiB and line count at most 258 (not 256: up to 128 head lines,
the marker line, a blank line, and up to 128 tail lines); the number of
omitted lines is `max(M - 256, 0)` where `M` is the total line count
(which equals `M - head_take - tail_take` for `head_take = min(128, M)`,
`tail_take = min(128, M - head_take)`); and whenever truncation occurs
and the marker itself fits in 10 KiB, the output is exactly a prefix of
the head block, followed by the marker (inserted once), followed by a
suffix of the tail block. -/
theorem C5_exec_output_cap_amended (s : List Char) :
    byteLen (format_exec_output_str s) ≤ MODEL_FORMAT_MAX_BYTES ∧
    (rustLines (format_exec_output_str s)).length ≤ 258 ∧
    fmtOmitted s = (rustLines s).length - 256 ∧
    (¬(byteLen s ≤ MODEL_FORMAT_MAX_BYTES ∧ (rustLines s).length ≤ MODEL_FORMAT_MAX_LINES) →
      byteLen (fmtMarker s) < MODEL_FORMAT_MAX_BYTES →
      format_exec_output_str s =
        fmtHeadPart s ++
          elisionMarker ((rustLines s).length - 256) (rustLines s).length ++ fmtTailPart s ∧
      fmtHeadPart s <+: fmtHeadBlock s ∧
      fmtTailPart s <:+ fmtTailBlock s) := by
  refine ⟨format_byteLen_le s, format_linesCount_le s, fmtOmitted_eq s, ?_⟩
  intro hfit hm
  refine ⟨?_, take_bytes_isPrefix _ _, take_last_isSuffix _ _⟩
  unfold format_exec_output_str
  rw [if_neg hfit, if_neg (fun hdeg => absurd hdeg.2 (by omega))]
  have hmk : fmtMarker s = elisionMarker ((rustLines s).length - 256) (rustLines s).length := by
    unfold fmtMarker
    rw [fmtOmitted_eq]
  rw [hmk]

set_option maxRecDepth 1000000 in
/-- Witness for C5 (amended) on 300 empty lines. -/
theorem C5_exec_output_cap_amended_witness :
    format_exec_output_str (List.replicate 300 '\n') =
      fmtHeadPart (List.replicate 300 '\n') ++
        elisionMarker ((rustLines (List.replicate 300 '\n')).length - 256)
          (rustLines (List.replicate 300 '\n')).length ++
        fmtTailPart (List.replicate 300 '\n') ∧
    fmtHeadPart (List.replicate 300 '\n') <+: fmtHeadBlock (List.replicate 300 '\n') ∧
    fmtTailPart (List.replicate 300 '\n') <:+ fmtTailBlock (List.replicate 300 '\n') :=
  (C5_exec_output_cap_amended (List.replicate 300 '\n')).2.2.2 (by decide) (by decide)

end Codex
